import Mathlib

/-!
# gpiod_callback.c : registration table, dispatch loop and lifecycle control

A shallow embedding of `src/gpiod_callback.c`.  The file-level variables of the C
source become the fields of one record that every operation receives and returns.
What belongs to libgpiod or to pthreads (opening the chip, the bulk wait, thread
creation) is an input of the operation that consumes it.  A store or a load outside
the bounds of `rpi_gpiod_callbacks`, and a call through a null function pointer, have
no defined result in C: the embedding reports them instead of picking one.

A callback is application code.  Calling one is recorded in the history of the thread
that calls it; its body is taken not to touch the variables of this file.  The event
record that `gpiod_line_event_read` fills is discarded by the source and is absent
here, as is the diagnostic output to stderr.

The contexts of the program share the stop flag.  A thread reads it in one place
only, the test of its `while`; so the stores that other contexts make to it in between
(the caller through `gpiod_stop_callbacks`, a thread created later through its own
line 98) are given to each turn of the loop as an input, in the order they are made.
-/

namespace GpiodCallback

/-! ## Data model -/

/-- The object behind a non-null `struct gpiod_line *`: `addr` tells two handles apart,
`offset` is the number the chip gave the line.  A pointer that may be NULL is an
`Option gpiod_line`. -/
structure gpiod_line where
  addr : Nat
  offset : Nat
deriving DecidableEq, Repr

/-- The libgpiod accessor `unsigned int gpiod_line_offset(struct gpiod_line *)`. -/
def gpiod_line_offset (line : gpiod_line) : Nat :=
  line.offset % 2 ^ 32

/-- The conversion performed by `int pin = gpiod_line_offset(line);`
(32 bit two's complement). -/
def int_of_unsigned (u : Nat) : Int :=
  if u < 2 ^ 31 then (u : Int) else (u : Int) - 2 ^ 32

/-- The initialiser of `int pin = gpiod_line_offset(line);`, lines 77, 88 and 112. -/
def pin_of_line (line : gpiod_line) : Int :=
  int_of_unsigned (gpiod_line_offset line)

/-- A non-null `void (*)(void)`, identified by its address.  The body of a callback is
application code; what this file does with it is store it and call it. -/
abbrev Callback := Nat

/-- An open chip handle, as returned by `gpiod_chip_open_by_name`. -/
abbrev Chip := Nat

/-- Modelled from the spec: `struct gpiod_callback` is declared in `gpiod_callback.h`,
which is not among the sources.  The three fields are the ones `gpiod_callback.c`
reads and writes, and the ones the spec lists for a CallbackEntry. -/
structure gpiod_callback where
  pin : Int
  line : Option gpiod_line
  callback : Option Callback
deriving DecidableEq, Repr

/-- The entry written by the initialisation loop: `pin = -1`, `line = NULL`,
`callback = NULL`. -/
def unused_entry : gpiod_callback :=
  ⟨-1, none, none⟩

/-- The file-level variables.  `N` stands for `NUM_RPI_PINS`, a macro of the absent
header `gpiod_callback.h`; the array has exactly `N` cells, so it is a function on
`Fin N`.  `callback_thread_tid` is only ever handed to `pthread_create` and is left out. -/
structure Globals (N : Nat) where
  rpi_chip : Option Chip
  rpi_gpiod_callbacks : Fin N → gpiod_callback
  cb_line_bulk : List gpiod_line
  end_callback_thread_flag : Int

/-! ## Stores into the table -/

/-- The state with the table replaced and every other variable kept. -/
def with_table {N : Nat} (g : Globals N) (tbl : Fin N → gpiod_callback) : Globals N :=
  { g with rpi_gpiod_callbacks := tbl }

/-- The store `rpi_gpiod_callbacks[i].pin = v`. -/
def store_pin {N : Nat} (tbl : Fin N → gpiod_callback) (i : Fin N) (v : Int) :
    Fin N → gpiod_callback :=
  Function.update tbl i { tbl i with pin := v }

/-- The store `rpi_gpiod_callbacks[i].line = v`. -/
def store_line {N : Nat} (tbl : Fin N → gpiod_callback) (i : Fin N)
    (v : Option gpiod_line) : Fin N → gpiod_callback :=
  Function.update tbl i { tbl i with line := v }

/-- The store `rpi_gpiod_callbacks[i].callback = v`. -/
def store_callback {N : Nat} (tbl : Fin N → gpiod_callback) (i : Fin N)
    (v : Option Callback) : Fin N → gpiod_callback :=
  Function.update tbl i { tbl i with callback := v }

/-- The cell an `int` subscript designates, when there is one. -/
def index_of_pin (N : Nat) (pin : Int) : Option (Fin N) :=
  if h : 0 ≤ pin ∧ pin < (N : Int) then some ⟨pin.toNat, by omega⟩ else none

/-! ## Initialisation, registration -/

/-- The body of the loop at lines 59-63. -/
def init_entry {N : Nat} (tbl : Fin N → gpiod_callback) (i : Fin N) :
    Fin N → gpiod_callback :=
  store_callback (store_line (store_pin tbl i (-1)) i none) i none

/-- Function `gpiod_init_callbacks`, lines 55-73.  `chip_open` is what
`gpiod_chip_open_by_name(RPI_CHIP_NAME)` returned. -/
def gpiod_init_callbacks {N : Nat} (g : Globals N) (chip_open : Option Chip) :
    Globals N × Int :=
  let tbl := (List.finRange N).foldl init_entry g.rpi_gpiod_callbacks
  let g1 : Globals N := { g with rpi_gpiod_callbacks := tbl, rpi_chip := chip_open }
  match chip_open with
  | none => ({ g1 with rpi_chip := none }, 0)
  | some _ => (g1, 1)

/-- Function `gpiod_line_register_callback`, lines 75-84.  The second component is the returned
`int`.  The first is the state after the call, `none` when the three stores fall outside
the array. -/
def gpiod_line_register_callback {N : Nat} (g : Globals N) (line : Option gpiod_line)
    (callback : Option Callback) : Option (Globals N) × Int :=
  match line with
  | some l =>
    let pin : Int := pin_of_line l
    let after : Option (Globals N) :=
      match index_of_pin N pin with
      | some i =>
        some (with_table g
          (store_callback (store_line (store_pin g.rpi_gpiod_callbacks i pin) i (some l)) i
            callback))
      | none => none
    (after, 1)
  | none => (some g, 0)

/-- Function `gpiod_line_unregister_callback`, lines 86-95; same conventions as for
registration. -/
def gpiod_line_unregister_callback {N : Nat} (g : Globals N) (line : Option gpiod_line) :
    Option (Globals N) × Int :=
  match line with
  | some l =>
    let pin : Int := pin_of_line l
    let after : Option (Globals N) :=
      match index_of_pin N pin with
      | some i =>
        some (with_table g
          (store_callback (store_line (store_pin g.rpi_gpiod_callbacks i (-1)) i none) i none))
      | none => none
    (after, 1)
  | none => (some g, 0)

/-! ## Lifecycle control -/

/-- Function `gpiod_stop_callbacks`, lines 146-149. -/
def gpiod_stop_callbacks {N : Nat} (g : Globals N) : Globals N × Int :=
  ({ g with end_callback_thread_flag := 1 }, 1)

/-- The libgpiod helper `gpiod_line_bulk_init`: the bulk holds no line. -/
def gpiod_line_bulk_init : List gpiod_line :=
  []

/-- The libgpiod helper `gpiod_line_bulk_add`: the line goes after the ones present. -/
def gpiod_line_bulk_add (bulk : List gpiod_line) (line : gpiod_line) : List gpiod_line :=
  bulk ++ [line]

/-- The body of the loop at lines 130-133. -/
def add_entry_line {N : Nat} (tbl : Fin N → gpiod_callback) (bulk : List gpiod_line)
    (i : Fin N) : List gpiod_line :=
  match (tbl i).line with
  | some line => gpiod_line_bulk_add bulk line
  | none => bulk

/-- Function `gpiod_start_callbacks`, lines 127-144.  `err` is what `pthread_create` returned;
the thread it created, when `err = 0`, runs `gpiod_callbacks_thread` on the state
returned here. -/
def gpiod_start_callbacks {N : Nat} (g : Globals N) (err : Int) : Globals N × Int :=
  let bulk := (List.finRange N).foldl (add_entry_line g.rpi_gpiod_callbacks)
    gpiod_line_bulk_init
  let g1 : Globals N := { g with cb_line_bulk := bulk }
  if err ≠ 0 then (g1, 0) else (g1, 1)

/-- Function `gpiod_restart_callbacks`, lines 151-154. -/
def gpiod_restart_callbacks {N : Nat} (g : Globals N) (err : Int) : Globals N × Int :=
  gpiod_start_callbacks (gpiod_stop_callbacks g).1 err

/-! ## The dispatch loop -/

/-- Where the thread running `gpiod_callbacks_thread` is: inside its `while`, past
it, or stopped by an access the C language leaves undefined. -/
inductive ThreadStatus where
  | running
  | finished
  | undefined_behaviour
deriving DecidableEq, Repr

/-- What one call of `gpiod_line_event_wait_bulk` hands back: its return value and
the content of `event_bulk`. -/
structure WaitReturn where
  ret : Int
  event_bulk : List gpiod_line
deriving DecidableEq, Repr

/-- A store to `end_callback_thread_flag` made outside the thread under study: by the
caller through `gpiod_stop_callbacks` (line 147), or by line 98 of a thread that a
later `gpiod_start_callbacks` or `gpiod_restart_callbacks` created. -/
inductive OutsideWrite where
  | stop
  | newer_thread_entry
deriving DecidableEq, Repr

/-- What the world outside the thread does during one turn of the `while`: `outside`
lists, oldest first, the stores made to the flag by other contexts since the thread
last tested it (for the first turn, since its own line 98); `wait` is what the bulk
wait returns if it is reached. -/
structure Cycle where
  outside : List OutsideWrite
  wait : WaitReturn
deriving DecidableEq, Repr

/-- The thread together with what it has done so far: the file-level variables, the
callbacks it has called (oldest first) and the number of bulk waits it has made. -/
structure ThreadState (N : Nat) where
  g : Globals N
  calls : List Callback
  waits : Nat
  status : ThreadStatus

/-- The body of the `for` at lines 109-116 for one fired line: the subscript is taken
from the line, and the callback stored there is called. -/
def dispatch_one {N : Nat} (st : ThreadState N) (line : gpiod_line) : ThreadState N :=
  match st.status with
  | ThreadStatus.running =>
    let pin : Int := pin_of_line line
    match index_of_pin N pin with
    | some i =>
      match (st.g.rpi_gpiod_callbacks i).callback with
      | some cb => { st with calls := st.calls ++ [cb] }
      | none => { st with status := ThreadStatus.undefined_behaviour }
    | none => { st with status := ThreadStatus.undefined_behaviour }
  | _ => st

/-- The `for` at lines 109-116. -/
def for_each_event {N : Nat} (st : ThreadState N) (event_bulk : List gpiod_line) :
    ThreadState N :=
  event_bulk.foldl dispatch_one st

/-- The thread as it stands right after line 98. -/
def thread_entry {N : Nat} (g : Globals N) : ThreadState N :=
  ⟨{ g with end_callback_thread_flag := 0 }, [], 0, ThreadStatus.running⟩

/-- The effect of one outside store on the file-level variables: line 147 for a stop,
line 98 for the entry of a newer thread. -/
def outside_write {N : Nat} (g : Globals N) : OutsideWrite → Globals N
  | OutsideWrite.stop => (gpiod_stop_callbacks g).1
  | OutsideWrite.newer_thread_entry => (thread_entry g).g

/-- One turn of the `while` at lines 106-123: the test of the flag, as the outside
stores have left it, the bulk wait and the three branches on its result. -/
def loop_iteration {N : Nat} (st : ThreadState N) (c : Cycle) : ThreadState N :=
  match st.status with
  | ThreadStatus.running =>
    let g := c.outside.foldl outside_write st.g
    if g.end_callback_thread_flag ≠ 0 then
      { st with g := g, status := ThreadStatus.finished }
    else
      let st1 : ThreadState N := { st with g := g, waits := st.waits + 1 }
      if c.wait.ret > 0 then for_each_event st1 c.wait.event_bulk
      else if c.wait.ret < 0 then { st1 with status := ThreadStatus.finished }
      else st1
  | _ => st

/-- Function `gpiod_callbacks_thread`, lines 97-125, run against the turns `env` of its
environment.  With `env` used up and the status still `running` the thread sits in
its next bulk wait. -/
def gpiod_callbacks_thread {N : Nat} (g : Globals N) (env : List Cycle) : ThreadState N :=
  env.foldl loop_iteration (thread_entry g)

/-! ## Sequences of registration calls -/

/-- One call made on the registration table. -/
inductive TableCall where
  | register (line : Option gpiod_line) (callback : Option Callback)
  | unregister (line : Option gpiod_line)
deriving DecidableEq, Repr

/-- The state after one call, `none` when it stored outside the array. -/
def apply_call {N : Nat} (g : Globals N) : TableCall → Option (Globals N)
  | TableCall.register line callback => (gpiod_line_register_callback g line callback).1
  | TableCall.unregister line => (gpiod_line_unregister_callback g line).1

/-- The state after a sequence of calls, made one after the other. -/
def apply_calls {N : Nat} (g : Globals N) : List TableCall → Option (Globals N)
  | [] => some g
  | c :: rest =>
    match apply_call g c with
    | some g1 => apply_calls g1 rest
    | none => none

/-- The line argument of a call. -/
def TableCall.line_arg : TableCall → Option gpiod_line
  | TableCall.register line _ => line
  | TableCall.unregister line => line

/-- The line argument, if not null, has its offset in `0 .. N-1`. -/
def offset_valid (N : Nat) (line : Option gpiod_line) : Prop :=
  ∀ l, line = some l → 0 ≤ pin_of_line l ∧ pin_of_line l < (N : Int)

instance (N : Nat) (line : Option gpiod_line) : Decidable (offset_valid N line) := by
  unfold offset_valid
  cases line with
  | none => exact isTrue (by intro l h; cases h)
  | some l0 =>
    exact decidable_of_iff (0 ≤ pin_of_line l0 ∧ pin_of_line l0 < (N : Int))
      ⟨fun h l hl => by cases hl; exact h, fun h => h l0 rfl⟩

/-- The callback the table holds for the pin of a line: what line 115 calls.  `none`
when the subscript is outside the array or the stored pointer is null. -/
def callback_of_line {N : Nat} (tbl : Fin N → gpiod_callback) (line : gpiod_line) :
    Option Callback :=
  match index_of_pin N (pin_of_line line) with
  | some i => (tbl i).callback
  | none => none

/-- The turn gets to its bulk wait as far as the outside stores go: the last of them,
if there is any, is not a stop. -/
def reaches_wait (c : Cycle) : Prop :=
  c.outside.getLast? ≠ some OutsideWrite.stop

instance (c : Cycle) : Decidable (reaches_wait c) := by
  unfold reaches_wait
  exact inferInstance

/-- The lines a turn of the loop gets reported as fired: the content of `event_bulk`
when the wait returned a positive value, nothing otherwise. -/
def reported (c : Cycle) : List gpiod_line :=
  if c.wait.ret > 0 then c.wait.event_bulk else []

/-- The wait-set as the spec words it: the lines of the entries whose pin is not -1,
taken in the order of the table.  Each element is the `line` field as stored, so a
null pointer would show as `none`. -/
def lines_of_used_entries {N : Nat} (tbl : Fin N → gpiod_callback) :
    List (Option gpiod_line) :=
  ((List.finRange N).filter (fun i => decide ((tbl i).pin ≠ -1))).map (fun i => (tbl i).line)

/-- The pins of the entries whose pin is not -1, in the order of the table. -/
def pins_of_used_entries {N : Nat} (tbl : Fin N → gpiod_callback) : List Int :=
  ((List.finRange N).filter (fun i => decide ((tbl i).pin ≠ -1))).map (fun i => (tbl i).pin)

/-- The CallbackEntry invariant of the data model: an entry whose pin is not -1 has a
line and a callback that are not null. -/
def entry_invariant (e : gpiod_callback) : Prop :=
  e.pin ≠ -1 → e.line ≠ none ∧ e.callback ≠ none

/-- The CallbackEntry invariant on every cell of the table. -/
def table_invariant {N : Nat} (g : Globals N) : Prop :=
  ∀ i : Fin N, entry_invariant (g.rpi_gpiod_callbacks i)

/-- Every cell is either unused, or it sits at the subscript its own pin names and
holds a line with that very offset. -/
def table_indexed_by_pin {N : Nat} (g : Globals N) : Prop :=
  ∀ i : Fin N, g.rpi_gpiod_callbacks i = unused_entry ∨
    ((g.rpi_gpiod_callbacks i).pin = (i.val : Int) ∧
      ∃ l, (g.rpi_gpiod_callbacks i).line = some l ∧ pin_of_line l = (i.val : Int))

/-- The callback argument of a registration is not null. -/
def callback_given : TableCall → Prop
  | TableCall.register _ callback => callback ≠ none
  | TableCall.unregister _ => True

instance (c : TableCall) : Decidable (callback_given c) := by
  cases c with
  | register line callback =>
    unfold callback_given
    exact inferInstance
  | unregister line =>
    unfold callback_given
    exact inferInstance

/-- A state of a 28-pin table to run the examples from: chip closed, every entry
unused, empty bulk, flag clear. -/
def blank_globals : Globals 28 :=
  ⟨none, fun _ => unused_entry, [], 0⟩

/-- A line handle with offset 17. -/
def line_17 : gpiod_line :=
  ⟨1017, 17⟩

/-- A line handle with offset 27. -/
def line_27 : gpiod_line :=
  ⟨1027, 27⟩

/-- The 28-pin table with pin 17 registered with callback 117 and pin 27 with
callback 127, everything else as in `blank_globals`. -/
def two_pins_registered : Globals 28 :=
  with_table blank_globals
    (Function.update
      (Function.update blank_globals.rpi_gpiod_callbacks 17 ⟨17, some line_17, some 117⟩)
      27 ⟨27, some line_27, some 127⟩)

/-- Four turns of the loop with no stop request: line 17 fires, then lines 17 and 27
together, then the wait times out, then line 17 fires again. -/
def edges_17_thrice_27_once : List Cycle :=
  [⟨[], ⟨1, [line_17]⟩⟩, ⟨[], ⟨1, [line_17, line_27]⟩⟩, ⟨[], ⟨0, []⟩⟩,
    ⟨[], ⟨1, [line_17]⟩⟩]

/-! ## Basic facts about the stores -/

theorem with_table_table {N : Nat} (g : Globals N) (tbl : Fin N → gpiod_callback) :
    (with_table g tbl).rpi_gpiod_callbacks = tbl :=
  rfl

theorem with_table_twice {N : Nat} (g : Globals N) (t1 t2 : Fin N → gpiod_callback) :
    with_table (with_table g t1) t2 = with_table g t2 :=
  rfl

theorem store_all_eq_update {N : Nat} (tbl : Fin N → gpiod_callback) (i : Fin N)
    (p : Int) (l : Option gpiod_line) (c : Option Callback) :
    store_callback (store_line (store_pin tbl i p) i l) i c
      = Function.update tbl i ⟨p, l, c⟩ := by
  funext j
  by_cases h : j = i
  · subst h
    simp [store_callback, store_line, store_pin]
  · simp [store_callback, store_line, store_pin, Function.update_noteq h]

theorem init_entry_eq_update {N : Nat} (tbl : Fin N → gpiod_callback) (i : Fin N) :
    init_entry tbl i = Function.update tbl i unused_entry := by
  unfold init_entry unused_entry
  exact store_all_eq_update tbl i (-1) none none

theorem foldl_init_entry_apply {N : Nat} (is : List (Fin N)) (tbl : Fin N → gpiod_callback)
    (j : Fin N) :
    (is.foldl init_entry tbl) j = if j ∈ is then unused_entry else tbl j := by
  induction is generalizing tbl with
  | nil => simp
  | cons i rest ih =>
    rw [List.foldl_cons, ih, init_entry_eq_update]
    by_cases hr : j ∈ rest
    · simp [hr]
    · by_cases hji : j = i
      · subst hji
        simp [hr]
      · simp [hr, hji, Function.update_noteq hji]

theorem init_table_eq {N : Nat} (tbl : Fin N → gpiod_callback) :
    (List.finRange N).foldl init_entry tbl = fun _ => unused_entry := by
  funext j
  rw [foldl_init_entry_apply]
  simp [List.mem_finRange]

theorem index_of_pin_some {N : Nat} {pin : Int} (h0 : 0 ≤ pin) (hN : pin < (N : Int)) :
    index_of_pin N pin = some ⟨pin.toNat, by omega⟩ := by
  unfold index_of_pin
  rw [dif_pos ⟨h0, hN⟩]

theorem index_of_pin_val {N : Nat} {pin : Int} {i : Fin N}
    (h : index_of_pin N pin = some i) : (i.val : Int) = pin := by
  unfold index_of_pin at h
  split at h
  · rename_i hb
    cases h
    simp [Int.toNat_of_nonneg hb.1]
  · cases h

/-! ## Initialisation -/

/-- C10: whatever the table held before and whether or not the chip opens, after
gpiod_init_callbacks every one of the N entries is the unused entry (pin -1, null line,
null callback); the function returns 1 exactly when the chip handle it got is not
null and 0 otherwise; and a second initialisation leaves the table as the first made
it. -/
theorem gpiod_init_callbacks_resets_table {N : Nat} (g : Globals N)
    (chip_open chip_again : Option Chip) :
    (∀ i : Fin N,
      ((gpiod_init_callbacks g chip_open).1.rpi_gpiod_callbacks i).pin = -1 ∧
      ((gpiod_init_callbacks g chip_open).1.rpi_gpiod_callbacks i).line = none ∧
      ((gpiod_init_callbacks g chip_open).1.rpi_gpiod_callbacks i).callback = none) ∧
    ((gpiod_init_callbacks g chip_open).2 = 1 ↔ chip_open ≠ none) ∧
    ((gpiod_init_callbacks g chip_open).2 = 0 ↔ chip_open = none) ∧
    (gpiod_init_callbacks g chip_open).1.rpi_chip = chip_open ∧
    (gpiod_init_callbacks (gpiod_init_callbacks g chip_open).1 chip_again).1.rpi_gpiod_callbacks
      = (gpiod_init_callbacks g chip_open).1.rpi_gpiod_callbacks ∧
    gpiod_init_callbacks (gpiod_init_callbacks g chip_open).1 chip_open
      = gpiod_init_callbacks g chip_open := by
  refine ⟨?_, ?_, ?_, ?_, ?_, ?_⟩
  · intro i
    cases chip_open <;> simp [gpiod_init_callbacks, init_table_eq, unused_entry]
  · cases chip_open <;> simp [gpiod_init_callbacks]
  · cases chip_open <;> simp [gpiod_init_callbacks]
  · cases chip_open <;> simp [gpiod_init_callbacks]
  · cases chip_open <;> cases chip_again <;> simp [gpiod_init_callbacks, init_table_eq]
  · cases chip_open <;> simp [gpiod_init_callbacks, init_table_eq]

/-! ## Registration and unregistration -/

theorem pin_of_line_of_small {N : Nat} (hN : N ≤ 2 ^ 31) (l : gpiod_line)
    (h : l.offset < N) : pin_of_line l = (l.offset : Int) := by
  have h1 : l.offset < 2 ^ 31 := lt_of_lt_of_le h hN
  have h2 : l.offset % 2 ^ 32 = l.offset := Nat.mod_eq_of_lt (by omega)
  unfold pin_of_line int_of_unsigned gpiod_line_offset
  rw [h2, if_pos h1]

theorem register_at {N : Nat} (g : Globals N) (l : gpiod_line) (cb : Option Callback)
    {i : Fin N} (hi : index_of_pin N (pin_of_line l) = some i) :
    gpiod_line_register_callback g (some l) cb
      = (some (with_table g
          (Function.update g.rpi_gpiod_callbacks i ⟨pin_of_line l, some l, cb⟩)), 1) := by
  simp only [gpiod_line_register_callback, hi, store_all_eq_update]

theorem unregister_at {N : Nat} (g : Globals N) (l : gpiod_line)
    {i : Fin N} (hi : index_of_pin N (pin_of_line l) = some i) :
    gpiod_line_unregister_callback g (some l)
      = (some (with_table g (Function.update g.rpi_gpiod_callbacks i unused_entry)), 1) := by
  simp only [gpiod_line_unregister_callback, hi, store_all_eq_update, unused_entry]

/-- C1: from any state of the table, for a non-null line whose offset p has
0 <= p < NUM_RPI_PINS and for any callback, registering the line succeeds, unregistering
it afterwards succeeds, and entry p is then the unused entry (pin -1, null line, null
callback), the value gpiod_init_callbacks writes there. -/
theorem register_then_unregister_leaves_unused {N : Nat} (g : Globals N) (l : gpiod_line)
    (cb : Option Callback) (chip_open : Option Chip)
    (h0 : 0 ≤ pin_of_line l) (hN : pin_of_line l < (N : Int)) :
    ∃ g1 g2 : Globals N,
      gpiod_line_register_callback g (some l) cb = (some g1, 1) ∧
      gpiod_line_unregister_callback g1 (some l) = (some g2, 1) ∧
      ∀ i : Fin N, (i.val : Int) = pin_of_line l →
        g2.rpi_gpiod_callbacks i = ⟨-1, none, none⟩ ∧
        g2.rpi_gpiod_callbacks i
          = (gpiod_init_callbacks g chip_open).1.rpi_gpiod_callbacks i := by
  have hi := index_of_pin_some h0 hN
  refine ⟨_, _, register_at g l cb hi, unregister_at _ l hi, ?_⟩
  intro i hil
  have hii : i = ⟨(pin_of_line l).toNat, by omega⟩ := by
    apply Fin.ext
    simp only
    omega
  rw [hii]
  have hinit : (gpiod_init_callbacks g chip_open).1.rpi_gpiod_callbacks
      = fun _ => unused_entry := by
    cases chip_open <;> simp [gpiod_init_callbacks, init_table_eq]
  rw [hinit]
  simp [unused_entry, with_table_table]

/-- Witness of C1 at the 28-pin blank table, the line with offset 17 and callback 5. -/
theorem register_then_unregister_leaves_unused_witness :
    ∃ g1 g2 : Globals 28,
      gpiod_line_register_callback blank_globals (some line_17) (some 5) = (some g1, 1) ∧
      gpiod_line_unregister_callback g1 (some line_17) = (some g2, 1) ∧
      ∀ i : Fin 28, (i.val : Int) = pin_of_line line_17 →
        g2.rpi_gpiod_callbacks i = ⟨-1, none, none⟩ ∧
        g2.rpi_gpiod_callbacks i
          = (gpiod_init_callbacks blank_globals none).1.rpi_gpiod_callbacks i :=
  register_then_unregister_leaves_unused blank_globals line_17 (some 5) none
    (by decide) (by decide)

/-- C2: gpiod_line_register_callback and gpiod_line_unregister_callback return 0
exactly when the line argument is null and 1 for every non-null line; and whenever
either returns 0 the state, hence every entry of the table, is as it was before the
call. -/
theorem null_line_is_the_only_failure {N : Nat} (g : Globals N) (line : Option gpiod_line)
    (cb : Option Callback) :
    ((gpiod_line_register_callback g line cb).2 = 0 ↔ line = none) ∧
    ((gpiod_line_register_callback g line cb).2 = 1 ↔ line ≠ none) ∧
    ((gpiod_line_unregister_callback g line).2 = 0 ↔ line = none) ∧
    ((gpiod_line_unregister_callback g line).2 = 1 ↔ line ≠ none) ∧
    ((gpiod_line_register_callback g line cb).2 = 0 →
      (gpiod_line_register_callback g line cb).1 = some g) ∧
    ((gpiod_line_unregister_callback g line).2 = 0 →
      (gpiod_line_unregister_callback g line).1 = some g) := by
  cases line <;>
    simp [gpiod_line_register_callback, gpiod_line_unregister_callback]

/-! ## States reached by registration calls -/

theorem init_table {N : Nat} (g : Globals N) (chip_open : Option Chip) :
    (gpiod_init_callbacks g chip_open).1.rpi_gpiod_callbacks = fun _ => unused_entry := by
  cases chip_open <;> simp [gpiod_init_callbacks, init_table_eq]

theorem apply_calls_induct {N : Nat} (P : Globals N → Prop) (Q : TableCall → Prop)
    (hstep : ∀ g c, P g → Q c → ∃ g1, apply_call g c = some g1 ∧ P g1) :
    ∀ (calls : List TableCall) (g : Globals N), P g → (∀ c ∈ calls, Q c) →
      ∃ g1, apply_calls g calls = some g1 ∧ P g1 := by
  intro calls
  induction calls with
  | nil =>
    intro g hg _
    exact ⟨g, rfl, hg⟩
  | cons c rest ih =>
    intro g hg hq
    obtain ⟨g1, h1, hp1⟩ := hstep g c hg (hq c (List.mem_cons_self c rest))
    obtain ⟨g2, h2, hp2⟩ := ih g1 hp1 (fun d hd => hq d (List.mem_cons_of_mem c hd))
    refine ⟨g2, ?_, hp2⟩
    simp only [apply_calls, h1]
    exact h2

/-- What a call with a valid line argument does to the state: nothing (null line), or
one cell is overwritten. -/
theorem apply_call_cases {N : Nat} (g : Globals N) (c : TableCall)
    (hv : offset_valid N c.line_arg) :
    apply_call g c = some g ∨
    (∃ l cb i, c = TableCall.register (some l) cb ∧ (i.val : Int) = pin_of_line l ∧
      apply_call g c = some (with_table g
        (Function.update g.rpi_gpiod_callbacks i ⟨pin_of_line l, some l, cb⟩))) ∨
    (∃ i, apply_call g c = some (with_table g
        (Function.update g.rpi_gpiod_callbacks i unused_entry))) := by
  cases c with
  | register line cb =>
    cases line with
    | none => exact Or.inl rfl
    | some l =>
      obtain ⟨h0, hN⟩ := hv l rfl
      have hi := index_of_pin_some h0 hN
      refine Or.inr (Or.inl ⟨l, cb, _, rfl, index_of_pin_val hi, ?_⟩)
      simp only [apply_call, register_at g l cb hi]
  | unregister line =>
    cases line with
    | none => exact Or.inl rfl
    | some l =>
      obtain ⟨h0, hN⟩ := hv l rfl
      have hi := index_of_pin_some h0 hN
      refine Or.inr (Or.inr ⟨⟨(pin_of_line l).toNat, by omega⟩, ?_⟩)
      simp only [apply_call, unregister_at g l hi]

theorem apply_call_keeps_indexed {N : Nat} (g : Globals N) (c : TableCall)
    (hg : table_indexed_by_pin g) (hv : offset_valid N c.line_arg) :
    ∃ g1, apply_call g c = some g1 ∧ table_indexed_by_pin g1 := by
  rcases apply_call_cases g c hv with h | ⟨l, cb, i, _, hil, h⟩ | ⟨i, h⟩
  · exact ⟨g, h, hg⟩
  · refine ⟨_, h, ?_⟩
    intro j
    by_cases hji : j = i
    · subst hji
      right
      simp only [with_table_table, Function.update_same]
      exact ⟨hil.symm, l, rfl, hil.symm⟩
    · simp only [with_table_table, Function.update_noteq hji]
      exact hg j
  · refine ⟨_, h, ?_⟩
    intro j
    by_cases hji : j = i
    · subst hji
      left
      simp only [with_table_table, Function.update_same]
    · simp only [with_table_table, Function.update_noteq hji]
      exact hg j

theorem apply_call_keeps_invariant {N : Nat} (g : Globals N) (c : TableCall)
    (hg : table_invariant g) (hq : offset_valid N c.line_arg ∧ callback_given c) :
    ∃ g1, apply_call g c = some g1 ∧ table_invariant g1 := by
  rcases apply_call_cases g c hq.1 with h | ⟨l, cb, i, hc, _, h⟩ | ⟨i, h⟩
  · exact ⟨g, h, hg⟩
  · refine ⟨_, h, ?_⟩
    have hcb : cb ≠ none := by
      have := hq.2
      rw [hc] at this
      exact this
    intro j
    by_cases hji : j = i
    · subst hji
      simp only [with_table_table, Function.update_same]
      intro _
      exact ⟨by simp, hcb⟩
    · simp only [with_table_table, Function.update_noteq hji]
      exact hg j
  · refine ⟨_, h, ?_⟩
    intro j
    by_cases hji : j = i
    · subst hji
      simp only [with_table_table, Function.update_same]
      intro hp
      exact absurd rfl hp
    · simp only [with_table_table, Function.update_noteq hji]
      exact hg j

/-- The table reached from initialisation by calls with valid line arguments is
indexed by pin. -/
theorem reachable_indexed_by_pin {N : Nat} (g0 : Globals N) (chip_open : Option Chip)
    (calls : List TableCall) (hv : ∀ c ∈ calls, offset_valid N c.line_arg) :
    ∃ g, apply_calls (gpiod_init_callbacks g0 chip_open).1 calls = some g ∧
      table_indexed_by_pin g := by
  apply apply_calls_induct table_indexed_by_pin (fun c => offset_valid N c.line_arg)
    apply_call_keeps_indexed calls _ _ hv
  intro i
  left
  rw [init_table]

/-- Witness of C2: a null line on the 28-pin table fails and changes nothing; the line
with offset 17 succeeds. -/
theorem null_line_is_the_only_failure_witness :
    (gpiod_line_register_callback blank_globals none (some 5)).2 = 0 ∧
    (gpiod_line_register_callback blank_globals none (some 5)).1 = some blank_globals ∧
    (gpiod_line_unregister_callback blank_globals none).1 = some blank_globals ∧
    (gpiod_line_register_callback blank_globals (some line_17) (some 5)).2 = 1 :=
  have h := null_line_is_the_only_failure blank_globals none (some 5)
  have k := null_line_is_the_only_failure blank_globals (some line_17) (some 5)
  ⟨h.1.mpr rfl, h.2.2.2.2.1 (h.1.mpr rfl), h.2.2.2.2.2 (h.2.2.1.mpr rfl),
    k.2.1.mpr (by decide)⟩

/-- C5, as the code has it: in every state reached from gpiod_init_callbacks by
register and unregister calls whose line argument is null or has its offset below
NUM_RPI_PINS, and whose callback argument, for a registration, is not null, every
entry whose pin is not -1 has a non-null line and a non-null callback. -/
theorem entry_invariant_reachable {N : Nat} (g0 : Globals N) (chip_open : Option Chip)
    (calls : List TableCall) (hv : ∀ c ∈ calls, offset_valid N c.line_arg)
    (hc : ∀ c ∈ calls, callback_given c) :
    ∃ g, apply_calls (gpiod_init_callbacks g0 chip_open).1 calls = some g ∧
      ∀ i : Fin N, (g.rpi_gpiod_callbacks i).pin ≠ -1 →
        (g.rpi_gpiod_callbacks i).line ≠ none ∧
        (g.rpi_gpiod_callbacks i).callback ≠ none := by
  apply apply_calls_induct table_invariant
    (fun c => offset_valid N c.line_arg ∧ callback_given c)
    apply_call_keeps_invariant calls _ _ (fun c hm => ⟨hv c hm, hc c hm⟩)
  intro i
  rw [init_table]
  intro hp
  exact absurd rfl hp

/-- Witness of the amended C5: pin 17 registered, unregistered, then pin 27
registered, on the 28-pin table. -/
theorem entry_invariant_reachable_witness :
    ∃ g, apply_calls (gpiod_init_callbacks blank_globals (some 1)).1
        [TableCall.register (some line_17) (some 5), TableCall.unregister (some line_17),
          TableCall.register (some line_27) (some 6), TableCall.unregister none] = some g ∧
      ∀ i : Fin 28, (g.rpi_gpiod_callbacks i).pin ≠ -1 →
        (g.rpi_gpiod_callbacks i).line ≠ none ∧
        (g.rpi_gpiod_callbacks i).callback ≠ none :=
  entry_invariant_reachable blank_globals (some 1) _ (by decide) (by decide)

/-- C5 as stated fails: on the 28-pin table, right after initialisation, registering the
line with offset 17 with a null callback argument returns success and leaves entry 17
with pin 17 and a null callback. -/
theorem entry_invariant_broken_by_null_callback :
    (∀ c ∈ [TableCall.register (some line_17) none], offset_valid 28 c.line_arg) ∧
    (gpiod_line_register_callback (gpiod_init_callbacks blank_globals (some 1)).1
      (some line_17) none).2 = 1 ∧
    ∃ g, apply_calls (gpiod_init_callbacks blank_globals (some 1)).1
        [TableCall.register (some line_17) none] = some g ∧
      (g.rpi_gpiod_callbacks 17).pin = 17 ∧
      (g.rpi_gpiod_callbacks 17).pin ≠ -1 ∧
      (g.rpi_gpiod_callbacks 17).callback = none ∧
      ¬ table_invariant g := by
  have hi : index_of_pin 28 (pin_of_line line_17) = some 17 := by decide
  have happ : apply_calls (gpiod_init_callbacks blank_globals (some 1)).1
      [TableCall.register (some line_17) none]
      = some (with_table (gpiod_init_callbacks blank_globals (some 1)).1
          (Function.update (gpiod_init_callbacks blank_globals (some 1)).1.rpi_gpiod_callbacks
            17 ⟨pin_of_line line_17, some line_17, none⟩)) := by
    simp only [apply_calls, apply_call, register_at _ line_17 none hi]
  refine ⟨by decide, rfl, _, happ, ?_, ?_, ?_, ?_⟩
  · simp only [with_table_table, Function.update_same]
    decide
  · simp only [with_table_table, Function.update_same]
    decide
  · simp only [with_table_table, Function.update_same]
  · intro h
    have h17 := h 17
    simp only [entry_invariant, with_table_table, Function.update_same] at h17
    exact (h17 (by decide)).2 rfl

/-! ## The dispatch loop -/

theorem dispatch_one_of_callback {N : Nat} (st : ThreadState N) (line : gpiod_line)
    (cb : Callback) (hrun : st.status = ThreadStatus.running)
    (hcb : callback_of_line st.g.rpi_gpiod_callbacks line = some cb) :
    dispatch_one st line = { st with calls := st.calls ++ [cb] } := by
  unfold callback_of_line at hcb
  unfold dispatch_one
  rw [hrun]
  cases hi : index_of_pin N (pin_of_line line) with
  | none => simp [hi] at hcb
  | some i =>
    simp only [hi] at hcb
    simp only [hi, hcb]

theorem for_each_event_of_callbacks {N : Nat} (fired : List gpiod_line) :
    ∀ (st : ThreadState N), st.status = ThreadStatus.running →
      (∀ l ∈ fired, callback_of_line st.g.rpi_gpiod_callbacks l ≠ none) →
      (for_each_event st fired).g = st.g ∧
      (for_each_event st fired).waits = st.waits ∧
      (for_each_event st fired).status = ThreadStatus.running ∧
      ∃ added : List Callback,
        (for_each_event st fired).calls = st.calls ++ added ∧
        added.map some = fired.map (callback_of_line st.g.rpi_gpiod_callbacks) := by
  induction fired with
  | nil =>
    intro st hrun _
    exact ⟨rfl, rfl, hrun, [], by simp [for_each_event], rfl⟩
  | cons l rest ih =>
    intro st hrun hall
    obtain ⟨cb, hcb⟩ := Option.ne_none_iff_exists'.mp (hall l (List.mem_cons_self l rest))
    have hstep := dispatch_one_of_callback st l cb hrun hcb
    have hrest := ih { st with calls := st.calls ++ [cb] } hrun
      (fun m hm => hall m (List.mem_cons_of_mem l hm))
    obtain ⟨hg, hw, hs, added, hcalls, hadded⟩ := hrest
    have hunf : for_each_event st (l :: rest)
        = for_each_event { st with calls := st.calls ++ [cb] } rest := by
      simp only [for_each_event, List.foldl_cons, hstep]
    rw [hunf]
    refine ⟨hg, hw, hs, cb :: added, ?_, ?_⟩
    · rw [hcalls]
      simp
    · simp only [List.map_cons, hadded, hcb]

theorem loop_iteration_of_stopped {N : Nat} (st : ThreadState N) (c : Cycle)
    (h : st.status ≠ ThreadStatus.running) : loop_iteration st c = st := by
  unfold loop_iteration
  cases hs : st.status with
  | running => exact absurd hs h
  | finished => rfl
  | undefined_behaviour => rfl

theorem foldl_loop_of_stopped {N : Nat} (env : List Cycle) (st : ThreadState N)
    (h : st.status ≠ ThreadStatus.running) : env.foldl loop_iteration st = st := by
  induction env with
  | nil => rfl
  | cons c rest ih => rw [List.foldl_cons, loop_iteration_of_stopped st c h, ih]

theorem dispatch_one_keeps {N : Nat} (st : ThreadState N) (line : gpiod_line) :
    (dispatch_one st line).g = st.g ∧ (dispatch_one st line).waits = st.waits ∧
    ((dispatch_one st line).status = ThreadStatus.running →
      st.status = ThreadStatus.running) := by
  unfold dispatch_one
  cases hs : st.status with
  | running =>
    cases hi : index_of_pin N (pin_of_line line) with
    | none => simp [hi]
    | some i =>
      cases hc : (st.g.rpi_gpiod_callbacks i).callback with
      | none => simp [hi, hc]
      | some cb => simp [hi, hc]
  | finished => simp [hs]
  | undefined_behaviour => simp [hs]

theorem for_each_event_keeps {N : Nat} (fired : List gpiod_line) :
    ∀ st : ThreadState N, (for_each_event st fired).g = st.g ∧
      (for_each_event st fired).waits = st.waits ∧
      ((for_each_event st fired).status = ThreadStatus.running →
        st.status = ThreadStatus.running) := by
  induction fired with
  | nil =>
    intro st
    exact ⟨rfl, rfl, id⟩
  | cons l rest ih =>
    intro st
    obtain ⟨h1, h2, h3⟩ := ih (dispatch_one st l)
    obtain ⟨k1, k2, k3⟩ := dispatch_one_keeps st l
    have hunf : for_each_event st (l :: rest) = for_each_event (dispatch_one st l) rest := rfl
    rw [hunf]
    exact ⟨h1.trans k1, h2.trans k2, fun h => k3 (h3 h)⟩

/-- Outside stores touch the flag and nothing else. -/
theorem outside_writes_keep {N : Nat} (ws : List OutsideWrite) :
    ∀ g : Globals N,
      (ws.foldl outside_write g).rpi_gpiod_callbacks = g.rpi_gpiod_callbacks ∧
      (ws.foldl outside_write g).cb_line_bulk = g.cb_line_bulk ∧
      (ws.foldl outside_write g).rpi_chip = g.rpi_chip := by
  induction ws with
  | nil =>
    intro g
    exact ⟨rfl, rfl, rfl⟩
  | cons w rest ih =>
    intro g
    obtain ⟨h1, h2, h3⟩ := ih (outside_write g w)
    rw [List.foldl_cons]
    cases w
    · exact ⟨h1, h2, h3⟩
    · exact ⟨h1, h2, h3⟩

theorem globals_ext {N : Nat} (a b : Globals N) (h1 : a.rpi_chip = b.rpi_chip)
    (h2 : a.rpi_gpiod_callbacks = b.rpi_gpiod_callbacks)
    (h3 : a.cb_line_bulk = b.cb_line_bulk)
    (h4 : a.end_callback_thread_flag = b.end_callback_thread_flag) : a = b := by
  cases a
  cases b
  simp only at h1 h2 h3 h4
  subst h1 h2 h3 h4
  rfl

/-- After outside stores the last of which is a stop, the flag reads 1. -/
theorem outside_writes_of_stop {N : Nat} (ws : List OutsideWrite) (g : Globals N)
    (h : ws.getLast? = some OutsideWrite.stop) :
    ws.foldl outside_write g = (gpiod_stop_callbacks g).1 := by
  rcases List.eq_nil_or_concat ws with hnil | ⟨rest, w, hw⟩
  · rw [hnil] at h
    cases h
  · rw [List.concat_eq_append] at hw
    rw [hw, List.getLast?_concat] at h
    cases h
    rw [hw, List.foldl_append]
    obtain ⟨h1, h2, h3⟩ := outside_writes_keep rest g
    exact globals_ext _ _ h3 h1 h2 rfl

/-- After outside stores the last of which is not a stop, a flag that read 0 reads 0. -/
theorem outside_writes_of_clear {N : Nat} (ws : List OutsideWrite) (g : Globals N)
    (h : ws.getLast? ≠ some OutsideWrite.stop) (hflag : g.end_callback_thread_flag = 0) :
    ws.foldl outside_write g = g := by
  rcases List.eq_nil_or_concat ws with hnil | ⟨rest, w, hw⟩
  · rw [hnil]
    rfl
  · rw [List.concat_eq_append] at hw
    rw [hw, List.getLast?_concat] at h
    rw [hw, List.foldl_append]
    obtain ⟨h1, h2, h3⟩ := outside_writes_keep rest g
    cases w with
    | stop => exact absurd rfl h
    | newer_thread_entry => exact globals_ext _ _ h3 h1 h2 hflag.symm

theorem loop_iteration_flag_set {N : Nat} (st : ThreadState N) (c : Cycle)
    (hrun : st.status = ThreadStatus.running)
    (hflag : (c.outside.foldl outside_write st.g).end_callback_thread_flag ≠ 0) :
    loop_iteration st c
      = ⟨c.outside.foldl outside_write st.g, st.calls, st.waits,
          ThreadStatus.finished⟩ := by
  obtain ⟨g, calls, waits, status⟩ := st
  simp only at hrun hflag
  subst hrun
  simp [loop_iteration, hflag]

theorem loop_iteration_flag_clear {N : Nat} (st : ThreadState N) (c : Cycle)
    (hrun : st.status = ThreadStatus.running)
    (hflag : (c.outside.foldl outside_write st.g).end_callback_thread_flag = 0) :
    loop_iteration st c
      = if c.wait.ret > 0 then
          for_each_event ⟨c.outside.foldl outside_write st.g, st.calls, st.waits + 1,
            ThreadStatus.running⟩ c.wait.event_bulk
        else if c.wait.ret < 0 then
          ⟨c.outside.foldl outside_write st.g, st.calls, st.waits + 1,
            ThreadStatus.finished⟩
        else
          ⟨c.outside.foldl outside_write st.g, st.calls, st.waits + 1,
            ThreadStatus.running⟩ := by
  obtain ⟨g, calls, waits, status⟩ := st
  simp only at hrun hflag
  subst hrun
  simp [loop_iteration, hflag]

theorem loop_iteration_stop {N : Nat} (st : ThreadState N) (c : Cycle)
    (hrun : st.status = ThreadStatus.running)
    (hstop : c.outside.getLast? = some OutsideWrite.stop) :
    loop_iteration st c
      = ⟨(gpiod_stop_callbacks st.g).1, st.calls, st.waits, ThreadStatus.finished⟩ := by
  have hseen := outside_writes_of_stop c.outside st.g hstop
  rw [loop_iteration_flag_set st c hrun (by rw [hseen]; simp [gpiod_stop_callbacks]), hseen]

theorem loop_iteration_fired {N : Nat} (st : ThreadState N) (c : Cycle)
    (hrun : st.status = ThreadStatus.running) (hreach : reaches_wait c)
    (hflag : st.g.end_callback_thread_flag = 0) (hret : 0 < c.wait.ret) :
    loop_iteration st c
      = for_each_event ⟨st.g, st.calls, st.waits + 1, ThreadStatus.running⟩
          c.wait.event_bulk := by
  have hseen := outside_writes_of_clear c.outside st.g hreach hflag
  rw [loop_iteration_flag_clear st c hrun (by rw [hseen]; exact hflag), hseen,
    if_pos hret]

theorem loop_iteration_error {N : Nat} (st : ThreadState N) (c : Cycle)
    (hrun : st.status = ThreadStatus.running) (hreach : reaches_wait c)
    (hflag : st.g.end_callback_thread_flag = 0) (hret : c.wait.ret < 0) :
    loop_iteration st c = ⟨st.g, st.calls, st.waits + 1, ThreadStatus.finished⟩ := by
  have hseen := outside_writes_of_clear c.outside st.g hreach hflag
  have hnot : ¬ c.wait.ret > 0 := by omega
  rw [loop_iteration_flag_clear st c hrun (by rw [hseen]; exact hflag), hseen,
    if_neg hnot, if_pos hret]

theorem loop_iteration_timeout {N : Nat} (st : ThreadState N) (c : Cycle)
    (hrun : st.status = ThreadStatus.running) (hreach : reaches_wait c)
    (hflag : st.g.end_callback_thread_flag = 0) (hret : c.wait.ret = 0) :
    loop_iteration st c = ⟨st.g, st.calls, st.waits + 1, ThreadStatus.running⟩ := by
  have hseen := outside_writes_of_clear c.outside st.g hreach hflag
  have hnot : ¬ c.wait.ret > 0 := by omega
  have hnot2 : ¬ c.wait.ret < 0 := by omega
  rw [loop_iteration_flag_clear st c hrun (by rw [hseen]; exact hflag), hseen,
    if_neg hnot, if_neg hnot2]

/-- A running thread whose flag is clear and whose turn is not stopped from outside
makes one more wait, whatever the wait returns. -/
theorem loop_iteration_waits {N : Nat} (st : ThreadState N) (c : Cycle)
    (hrun : st.status = ThreadStatus.running) (hreach : reaches_wait c)
    (hflag : st.g.end_callback_thread_flag = 0) :
    (loop_iteration st c).waits = st.waits + 1 := by
  rcases lt_trichotomy c.wait.ret 0 with hn | hz | hp
  · rw [loop_iteration_error st c hrun hreach hflag hn]
  · rw [loop_iteration_timeout st c hrun hreach hflag hz]
  · rw [loop_iteration_fired st c hrun hreach hflag hp]
    exact (for_each_event_keeps c.wait.event_bulk _).2.1

/-- While the thread is inside its loop the flag reads 0, and the thread never writes
the table or the bulk. -/
theorem loop_iteration_keeps {N : Nat} (st : ThreadState N) (c : Cycle) :
    (loop_iteration st c).g.rpi_gpiod_callbacks = st.g.rpi_gpiod_callbacks ∧
    (loop_iteration st c).g.cb_line_bulk = st.g.cb_line_bulk ∧
    ((st.status = ThreadStatus.running → st.g.end_callback_thread_flag = 0) →
      (loop_iteration st c).status = ThreadStatus.running →
      (loop_iteration st c).g.end_callback_thread_flag = 0) := by
  obtain ⟨k1, k2, _⟩ := outside_writes_keep c.outside st.g
  by_cases hrun : st.status = ThreadStatus.running
  · by_cases hflag : (c.outside.foldl outside_write st.g).end_callback_thread_flag = 0
    · rw [loop_iteration_flag_clear st c hrun hflag]
      by_cases hpos : c.wait.ret > 0
      · rw [if_pos hpos]
        obtain ⟨h1, _, _⟩ := for_each_event_keeps c.wait.event_bulk
          (⟨c.outside.foldl outside_write st.g, st.calls, st.waits + 1,
            ThreadStatus.running⟩ : ThreadState N)
        rw [h1]
        exact ⟨k1, k2, fun _ _ => hflag⟩
      · rw [if_neg hpos]
        by_cases hneg : c.wait.ret < 0
        · rw [if_pos hneg]
          refine ⟨k1, k2, ?_⟩
          intro _ h
          cases h
        · rw [if_neg hneg]
          exact ⟨k1, k2, fun _ _ => hflag⟩
    · rw [loop_iteration_flag_set st c hrun hflag]
      refine ⟨k1, k2, ?_⟩
      intro _ h
      cases h
  · rw [loop_iteration_of_stopped st c hrun]
    exact ⟨rfl, rfl, fun h1 h2 => h1 h2⟩

theorem thread_keeps {N : Nat} (g : Globals N) (env : List Cycle) :
    (gpiod_callbacks_thread g env).g.rpi_gpiod_callbacks = g.rpi_gpiod_callbacks ∧
    (gpiod_callbacks_thread g env).g.cb_line_bulk = g.cb_line_bulk ∧
    ((gpiod_callbacks_thread g env).status = ThreadStatus.running →
      (gpiod_callbacks_thread g env).g.end_callback_thread_flag = 0) := by
  unfold gpiod_callbacks_thread
  induction env using List.reverseRecOn with
  | nil => exact ⟨rfl, rfl, fun _ => rfl⟩
  | append_singleton rest c ih =>
    rw [List.foldl_append, List.foldl_cons, List.foldl_nil]
    obtain ⟨h1, h2, h3⟩ := ih
    obtain ⟨k1, k2, k3⟩ := loop_iteration_keeps (rest.foldl loop_iteration (thread_entry g)) c
    exact ⟨k1.trans h1, k2.trans h2, k3 h3⟩

theorem thread_append {N : Nat} (g : Globals N) (pre post : List Cycle) :
    gpiod_callbacks_thread g (pre ++ post)
      = post.foldl loop_iteration (gpiod_callbacks_thread g pre) := by
  unfold gpiod_callbacks_thread
  rw [List.foldl_append]

theorem thread_singleton {N : Nat} (g : Globals N) (pre : List Cycle) (c : Cycle) :
    gpiod_callbacks_thread g (pre ++ [c])
      = loop_iteration (gpiod_callbacks_thread g pre) c := by
  rw [thread_append]
  rfl

/-- A turn in which the wait reports lines that all have a callback in the table. -/
theorem thread_fired_cycle {N : Nat} (g : Globals N) (pre : List Cycle) (c : Cycle)
    (hrun : (gpiod_callbacks_thread g pre).status = ThreadStatus.running)
    (hreach : reaches_wait c) (hret : 0 < c.wait.ret)
    (hall : ∀ l ∈ c.wait.event_bulk, callback_of_line g.rpi_gpiod_callbacks l ≠ none) :
    (gpiod_callbacks_thread g (pre ++ [c])).status = ThreadStatus.running ∧
    (gpiod_callbacks_thread g (pre ++ [c])).waits
      = (gpiod_callbacks_thread g pre).waits + 1 ∧
    ∃ added : List Callback,
      (gpiod_callbacks_thread g (pre ++ [c])).calls
        = (gpiod_callbacks_thread g pre).calls ++ added ∧
      added.map some = c.wait.event_bulk.map (callback_of_line g.rpi_gpiod_callbacks) := by
  obtain ⟨htbl, _, hflag⟩ := thread_keeps g pre
  rw [thread_singleton,
    loop_iteration_fired (gpiod_callbacks_thread g pre) c hrun hreach (hflag hrun) hret]
  have h := for_each_event_of_callbacks c.wait.event_bulk
    (⟨(gpiod_callbacks_thread g pre).g, (gpiod_callbacks_thread g pre).calls,
      (gpiod_callbacks_thread g pre).waits + 1, ThreadStatus.running⟩ : ThreadState N) rfl
    (by simpa only [htbl] using hall)
  obtain ⟨_, hw, hs, added, hcalls, hadded⟩ := h
  refine ⟨hs, hw, added, hcalls, ?_⟩
  simpa only [htbl] using hadded

/-- C7: in a running thread, a turn whose bulk wait returns a negative value ends the
loop in that turn: the thread is finished, has called nothing in that turn, makes no
wait afterwards whatever the environment offers, and the table is as it was.  A turn
whose wait returns zero calls nothing and leaves the thread in its loop, where the
next turn waits again. -/
theorem wait_error_ends_loop {N : Nat} (g : Globals N) (pre post : List Cycle)
    (ws wsn : List OutsideWrite) (w next : WaitReturn)
    (hrun : (gpiod_callbacks_thread g pre).status = ThreadStatus.running)
    (hws : ws.getLast? ≠ some OutsideWrite.stop)
    (hwsn : wsn.getLast? ≠ some OutsideWrite.stop) :
    (w.ret < 0 →
      (gpiod_callbacks_thread g (pre ++ [⟨ws, w⟩])).status = ThreadStatus.finished ∧
      (gpiod_callbacks_thread g (pre ++ [⟨ws, w⟩])).calls
        = (gpiod_callbacks_thread g pre).calls ∧
      (gpiod_callbacks_thread g (pre ++ [⟨ws, w⟩])).waits
        = (gpiod_callbacks_thread g pre).waits + 1 ∧
      (gpiod_callbacks_thread g (pre ++ [⟨ws, w⟩])).g.rpi_gpiod_callbacks
        = g.rpi_gpiod_callbacks ∧
      gpiod_callbacks_thread g (pre ++ [⟨ws, w⟩] ++ post)
        = gpiod_callbacks_thread g (pre ++ [⟨ws, w⟩])) ∧
    (w.ret = 0 →
      (gpiod_callbacks_thread g (pre ++ [⟨ws, w⟩])).status = ThreadStatus.running ∧
      (gpiod_callbacks_thread g (pre ++ [⟨ws, w⟩])).calls
        = (gpiod_callbacks_thread g pre).calls ∧
      (gpiod_callbacks_thread g (pre ++ [⟨ws, w⟩])).waits
        = (gpiod_callbacks_thread g pre).waits + 1 ∧
      (gpiod_callbacks_thread g (pre ++ [⟨ws, w⟩])).g.rpi_gpiod_callbacks
        = g.rpi_gpiod_callbacks ∧
      (gpiod_callbacks_thread g (pre ++ [⟨ws, w⟩] ++ [⟨wsn, next⟩])).waits
        = (gpiod_callbacks_thread g pre).waits + 2) := by
  obtain ⟨htbl, _, hflag⟩ := thread_keeps g pre
  constructor
  · intro hneg
    have hstep := loop_iteration_error (gpiod_callbacks_thread g pre) (Cycle.mk ws w) hrun
      hws (hflag hrun) hneg
    have hone := thread_singleton g pre (Cycle.mk ws w)
    rw [hstep] at hone
    refine ⟨by rw [hone], by rw [hone], by rw [hone], by rw [hone]; exact htbl, ?_⟩
    rw [thread_append g (pre ++ [Cycle.mk ws w]) post]
    apply foldl_loop_of_stopped
    rw [hone]
    intro h
    cases h
  · intro hzero
    have hstep := loop_iteration_timeout (gpiod_callbacks_thread g pre) (Cycle.mk ws w)
      hrun hws (hflag hrun) hzero
    have hone := thread_singleton g pre (Cycle.mk ws w)
    rw [hstep] at hone
    refine ⟨by rw [hone], by rw [hone], by rw [hone], by rw [hone]; exact htbl, ?_⟩
    rw [thread_singleton g (pre ++ [Cycle.mk ws w]) (Cycle.mk wsn next), hone]
    exact loop_iteration_waits _ (Cycle.mk wsn next) rfl hwsn (hflag hrun)

/-- Witness of C7: the thread on the table with pins 17 and 27 registered, whose very
first wait fails while line 17 is pending. -/
theorem wait_error_ends_loop_witness :
    (gpiod_callbacks_thread two_pins_registered []).status = ThreadStatus.running ∧
    (gpiod_callbacks_thread two_pins_registered
      ([] ++ [⟨[], ⟨-1, [line_17]⟩⟩])).status = ThreadStatus.finished ∧
    (gpiod_callbacks_thread two_pins_registered ([] ++ [⟨[], ⟨-1, [line_17]⟩⟩])).calls
      = (gpiod_callbacks_thread two_pins_registered []).calls ∧
    gpiod_callbacks_thread two_pins_registered
        ([] ++ [⟨[], ⟨-1, [line_17]⟩⟩] ++ [⟨[], ⟨1, [line_17]⟩⟩])
      = gpiod_callbacks_thread two_pins_registered ([] ++ [⟨[], ⟨-1, [line_17]⟩⟩]) :=
  have h := (wait_error_ends_loop two_pins_registered [] [⟨[], ⟨1, [line_17]⟩⟩] [] []
    ⟨-1, [line_17]⟩ ⟨0, []⟩ rfl (by decide) (by decide)).1 (by decide)
  ⟨rfl, h.1, h.2.1, h.2.2.2.2⟩

/-- The thread clears the flag as its first statement (line 98), so a stop request
made before the thread has executed that statement is not seen by it. -/
theorem stop_before_thread_entry_is_overwritten {N : Nat} (g : Globals N)
    (env : List Cycle) :
    gpiod_callbacks_thread (gpiod_stop_callbacks g).1 env = gpiod_callbacks_thread g env :=
  rfl

/-- What does hold of a stop: when the thread is in its loop and the last store made to
the flag before the thread tests it is that of gpiod_stop_callbacks, the test ends the loop.
The thread finishes without another wait and, whatever the provider would report from
then on, the callbacks it has called are those of the turns completed before that
test; the batch that was being dispatched when the flag was set is among them,
complete. -/
theorem stop_seen_ends_loop {N : Nat} (g : Globals N) (pre post : List Cycle)
    (ws : List OutsideWrite) (w : WaitReturn)
    (hrun : (gpiod_callbacks_thread g pre).status = ThreadStatus.running)
    (hstop : ws.getLast? = some OutsideWrite.stop) :
    (gpiod_callbacks_thread g (pre ++ [⟨ws, w⟩] ++ post)).status
      = ThreadStatus.finished ∧
    (gpiod_callbacks_thread g (pre ++ [⟨ws, w⟩] ++ post)).calls
      = (gpiod_callbacks_thread g pre).calls ∧
    (gpiod_callbacks_thread g (pre ++ [⟨ws, w⟩] ++ post)).waits
      = (gpiod_callbacks_thread g pre).waits ∧
    (gpiod_callbacks_thread g (pre ++ [⟨ws, w⟩] ++ post)).g
      = (gpiod_stop_callbacks (gpiod_callbacks_thread g pre).g).1 ∧
    (∀ (earlier : List Cycle) (batch : Cycle),
      pre = earlier ++ [batch] → reaches_wait batch → 0 < batch.wait.ret →
      (gpiod_callbacks_thread g earlier).status = ThreadStatus.running →
      (∀ l ∈ batch.wait.event_bulk, callback_of_line g.rpi_gpiod_callbacks l ≠ none) →
      ∃ added : List Callback,
        (gpiod_callbacks_thread g (pre ++ [⟨ws, w⟩] ++ post)).calls
          = (gpiod_callbacks_thread g earlier).calls ++ added ∧
        added.map some
          = batch.wait.event_bulk.map (callback_of_line g.rpi_gpiod_callbacks)) := by
  have hone := thread_singleton g pre (Cycle.mk ws w)
  rw [loop_iteration_stop (gpiod_callbacks_thread g pre) (Cycle.mk ws w) hrun hstop] at hone
  have hall : gpiod_callbacks_thread g (pre ++ [Cycle.mk ws w] ++ post)
      = gpiod_callbacks_thread g (pre ++ [Cycle.mk ws w]) := by
    rw [thread_append g (pre ++ [Cycle.mk ws w]) post]
    apply foldl_loop_of_stopped
    rw [hone]
    intro h
    cases h
  rw [hall, hone]
  refine ⟨rfl, rfl, rfl, rfl, ?_⟩
  intro earlier batch hpre hreach hret hearlier hbatch
  obtain ⟨_, _, added, hcalls, hadded⟩ :=
    thread_fired_cycle g earlier batch hearlier hreach hret hbatch
  refine ⟨added, ?_, hadded⟩
  simp only
  rw [hpre]
  exact hcalls

/-- C8: the code loses a stop.  On the table with pins 17 and 27 registered,
gpiod_start_callbacks returns 1 and gpiod_stop_callbacks, called before the new thread
has executed line 98, returns 1 and leaves the flag at 1; line 98 then stores 0 over
it, and the thread, given line 17 and then line 27, calls 117 and 127 and is still in
its loop after two waits, where the claim has it exit and call nothing.  The same
store loses a stop made while the thread is in its loop when a thread created later
executes its line 98 before the older thread tests the flag, as after
gpiod_restart_callbacks. -/
theorem stop_before_line_98_is_lost :
    (gpiod_start_callbacks two_pins_registered 0).2 = 1 ∧
    (gpiod_stop_callbacks (gpiod_start_callbacks two_pins_registered 0).1).2 = 1 ∧
    (gpiod_stop_callbacks
      (gpiod_start_callbacks two_pins_registered 0).1).1.end_callback_thread_flag = 1 ∧
    (gpiod_callbacks_thread
      (gpiod_stop_callbacks (gpiod_start_callbacks two_pins_registered 0).1).1
      [⟨[], ⟨1, [line_17]⟩⟩, ⟨[], ⟨1, [line_27]⟩⟩]).calls = [117, 127] ∧
    (gpiod_callbacks_thread
      (gpiod_stop_callbacks (gpiod_start_callbacks two_pins_registered 0).1).1
      [⟨[], ⟨1, [line_17]⟩⟩, ⟨[], ⟨1, [line_27]⟩⟩]).status = ThreadStatus.running ∧
    (gpiod_callbacks_thread
      (gpiod_stop_callbacks (gpiod_start_callbacks two_pins_registered 0).1).1
      [⟨[], ⟨1, [line_17]⟩⟩, ⟨[], ⟨1, [line_27]⟩⟩]).waits = 2 ∧
    (gpiod_callbacks_thread (gpiod_start_callbacks two_pins_registered 0).1
      [⟨[], ⟨1, [line_17]⟩⟩,
        ⟨[OutsideWrite.stop, OutsideWrite.newer_thread_entry], ⟨1, [line_27]⟩⟩]).calls
      = [117, 127] ∧
    (gpiod_callbacks_thread (gpiod_start_callbacks two_pins_registered 0).1
      [⟨[], ⟨1, [line_17]⟩⟩,
        ⟨[OutsideWrite.stop, OutsideWrite.newer_thread_entry], ⟨1, [line_27]⟩⟩]).status
      = ThreadStatus.running := by
  refine ⟨by decide, by decide, by decide, by decide, by decide, by decide, by decide,
    by decide⟩

/-- C9: gpiod_stop_callbacks returns 1 in every state and touches neither the table, nor
the bulk of waited lines, nor the chip handle; calling it twice leaves the state that
calling it once leaves; and when the thread has already left its loop, calling it makes
the thread call nothing, whatever the provider reports afterwards. -/
theorem stop_is_idempotent {N : Nat} (g : Globals N) (st : ThreadState N)
    (env : List Cycle) :
    (gpiod_stop_callbacks g).2 = 1 ∧
    (gpiod_stop_callbacks g).1.rpi_gpiod_callbacks = g.rpi_gpiod_callbacks ∧
    (gpiod_stop_callbacks g).1.cb_line_bulk = g.cb_line_bulk ∧
    (gpiod_stop_callbacks g).1.rpi_chip = g.rpi_chip ∧
    gpiod_stop_callbacks (gpiod_stop_callbacks g).1 = gpiod_stop_callbacks g ∧
    (g.end_callback_thread_flag = 1 → (gpiod_stop_callbacks g).1 = g) ∧
    (st.status = ThreadStatus.finished →
      env.foldl loop_iteration ⟨(gpiod_stop_callbacks st.g).1, st.calls, st.waits, st.status⟩
        = ⟨(gpiod_stop_callbacks st.g).1, st.calls, st.waits, st.status⟩) := by
  refine ⟨rfl, rfl, rfl, rfl, rfl, ?_, ?_⟩
  · intro h
    obtain ⟨c, t, b, f⟩ := g
    simp only at h
    subst h
    rfl
  · intro h
    apply foldl_loop_of_stopped
    simp only [h]
    intro h2
    cases h2

/-- Witness of C9: the thread that a failed wait has ended, then stop, then line 17
reported. -/
theorem stop_is_idempotent_witness :
    (gpiod_callbacks_thread two_pins_registered
      [⟨[], ⟨-1, []⟩⟩]).status = ThreadStatus.finished ∧
    ([⟨[], ⟨1, [line_17]⟩⟩].foldl loop_iteration
      ⟨(gpiod_stop_callbacks
          (gpiod_callbacks_thread two_pins_registered [⟨[], ⟨-1, []⟩⟩]).g).1,
        (gpiod_callbacks_thread two_pins_registered [⟨[], ⟨-1, []⟩⟩]).calls,
        (gpiod_callbacks_thread two_pins_registered [⟨[], ⟨-1, []⟩⟩]).waits,
        (gpiod_callbacks_thread two_pins_registered [⟨[], ⟨-1, []⟩⟩]).status⟩).calls
      = [] ∧
    ((gpiod_stop_callbacks two_pins_registered).1.end_callback_thread_flag = 1 →
      (gpiod_stop_callbacks (gpiod_stop_callbacks two_pins_registered).1).1
        = (gpiod_stop_callbacks two_pins_registered).1) :=
  have h := stop_is_idempotent (gpiod_stop_callbacks two_pins_registered).1
    (gpiod_callbacks_thread two_pins_registered [⟨[], ⟨-1, []⟩⟩])
    [⟨[], ⟨1, [line_17]⟩⟩]
  ⟨by decide, by rw [h.2.2.2.2.2.2 (by decide)]; decide, h.2.2.2.2.2.1⟩

/-! ## The wait-set built at start -/

theorem foldl_add_entry_line {N : Nat} (tbl : Fin N → gpiod_callback) (is : List (Fin N)) :
    ∀ acc : List gpiod_line,
      is.foldl (add_entry_line tbl) acc = acc ++ is.filterMap (fun i => (tbl i).line) := by
  induction is with
  | nil =>
    intro acc
    simp
  | cons i rest ih =>
    intro acc
    rw [List.foldl_cons, ih]
    unfold add_entry_line gpiod_line_bulk_add
    cases h : (tbl i).line with
    | none => simp [List.filterMap_cons, h]
    | some l => simp [List.filterMap_cons, h]

theorem start_bulk_eq {N : Nat} (g : Globals N) (err : Int) :
    (gpiod_start_callbacks g err).1.cb_line_bulk
      = (List.finRange N).filterMap (fun i => (g.rpi_gpiod_callbacks i).line) := by
  unfold gpiod_start_callbacks
  by_cases h : err = 0
  · simp [h, foldl_add_entry_line, gpiod_line_bulk_init]
  · simp [h, foldl_add_entry_line, gpiod_line_bulk_init]

theorem start_keeps_table {N : Nat} (g : Globals N) (err : Int) :
    (gpiod_start_callbacks g err).1.rpi_gpiod_callbacks = g.rpi_gpiod_callbacks := by
  unfold gpiod_start_callbacks
  by_cases h : err = 0
  · simp [h]
  · simp [h]

/-- On a table indexed by pin, walking any list of cells and keeping the non-null
lines gives the lines, and the pins, of the cells whose pin is not -1. -/
theorem used_lines_of_indexed {N : Nat} (g : Globals N) (hg : table_indexed_by_pin g)
    (is : List (Fin N)) :
    (is.filterMap (fun i => (g.rpi_gpiod_callbacks i).line)).map some
      = (is.filter (fun i => decide ((g.rpi_gpiod_callbacks i).pin ≠ -1))).map
          (fun i => (g.rpi_gpiod_callbacks i).line) ∧
    (is.filterMap (fun i => (g.rpi_gpiod_callbacks i).line)).map pin_of_line
      = (is.filter (fun i => decide ((g.rpi_gpiod_callbacks i).pin ≠ -1))).map
          (fun i => (g.rpi_gpiod_callbacks i).pin) ∧
    (is.filter (fun i => decide ((g.rpi_gpiod_callbacks i).pin ≠ -1))).map
        (fun i => (g.rpi_gpiod_callbacks i).pin)
      = (is.filter (fun i => decide ((g.rpi_gpiod_callbacks i).pin ≠ -1))).map
          (fun i => (i.val : Int)) := by
  induction is with
  | nil => simp
  | cons i rest ih =>
    obtain ⟨ih1, ih2, ih3⟩ := ih
    rcases hg i with hun | ⟨hpin, l, hline, hl⟩
    · have hp : (g.rpi_gpiod_callbacks i).pin = -1 := by rw [hun]; rfl
      have hl : (g.rpi_gpiod_callbacks i).line = none := by rw [hun]; rfl
      simp only [List.filterMap_cons, hl, List.filter_cons, hp, ne_eq, not_true_eq_false,
        decide_False, Bool.false_eq_true, if_false]
      exact ⟨ih1, ih2, ih3⟩
    · have hp : (g.rpi_gpiod_callbacks i).pin ≠ -1 := by
        rw [hpin]
        have := i.val.zero_le
        omega
      simp only [List.filterMap_cons, hline, List.filter_cons, hp, ne_eq, not_false_eq_true,
        decide_True, if_true, List.map_cons]
      refine ⟨?_, ?_, ?_⟩
      · rw [ih1]
      · rw [ih2, hl, hpin]
      · rw [ih3, hpin]

theorem loop_iteration_calls_of_no_event {N : Nat} (st : ThreadState N) (c : Cycle)
    (hc : c.wait.event_bulk = []) : (loop_iteration st c).calls = st.calls := by
  by_cases hrun : st.status = ThreadStatus.running
  · by_cases hflag : (c.outside.foldl outside_write st.g).end_callback_thread_flag = 0
    · rw [loop_iteration_flag_clear st c hrun hflag, hc]
      by_cases hpos : c.wait.ret > 0
      · rw [if_pos hpos]
        rfl
      · rw [if_neg hpos]
        by_cases hneg : c.wait.ret < 0
        · rw [if_pos hneg]
        · rw [if_neg hneg]
    · rw [loop_iteration_flag_set st c hrun hflag]
  · rw [loop_iteration_of_stopped st c hrun]

theorem thread_calls_of_no_event {N : Nat} (g : Globals N) (env : List Cycle)
    (henv : ∀ c ∈ env, c.wait.event_bulk = []) :
    (gpiod_callbacks_thread g env).calls = [] := by
  induction env using List.reverseRecOn with
  | nil => rfl
  | append_singleton rest c ih =>
    rw [thread_singleton, loop_iteration_calls_of_no_event _ c (henv c (by simp))]
    exact ih (fun d hd => henv d (by simp [hd]))

theorem apply_call_some_valid {N : Nat} (g g1 : Globals N) (c : TableCall)
    (h : apply_call g c = some g1) : offset_valid N c.line_arg := by
  intro l hl
  have hidx : index_of_pin N (pin_of_line l) ≠ none := by
    intro hnone
    cases c with
    | register line cb =>
      simp only [TableCall.line_arg] at hl
      subst hl
      simp [apply_call, gpiod_line_register_callback, hnone] at h
    | unregister line =>
      simp only [TableCall.line_arg] at hl
      subst hl
      simp [apply_call, gpiod_line_unregister_callback, hnone] at h
  unfold index_of_pin at hidx
  by_cases hb : 0 ≤ pin_of_line l ∧ pin_of_line l < (N : Int)
  · exact hb
  · rw [dif_neg hb] at hidx
    exact absurd rfl hidx

theorem apply_calls_some_valid {N : Nat} (calls : List TableCall) :
    ∀ (g g1 : Globals N), apply_calls g calls = some g1 →
      ∀ c ∈ calls, offset_valid N c.line_arg := by
  induction calls with
  | nil =>
    intro g g1 _ c hc
    cases hc
  | cons d rest ih =>
    intro g g1 h c hc
    cases hd : apply_call g d with
    | none => simp [apply_calls, hd] at h
    | some g2 =>
      simp only [apply_calls, hd] at h
      rcases List.mem_cons.mp hc with rfl | hin
      · exact apply_call_some_valid g g2 c hd
      · exact ih g2 g1 h c hin

/-- C6: in every state reached from gpiod_init_callbacks by register and unregister
calls, the bulk that gpiod_start_callbacks builds holds exactly the lines of the entries
whose pin is not -1, in table order; their pins are strictly ascending, so no line is
there twice; the bulk depends on the table alone, not on what it held before; and when
every entry is unused the bulk is empty and a thread whose waits report only lines of
the bulk calls nothing. -/
theorem start_builds_wait_set {N : Nat} (g0 g : Globals N) (chip_open : Option Chip)
    (calls : List TableCall) (err : Int)
    (hreach : apply_calls (gpiod_init_callbacks g0 chip_open).1 calls = some g) :
    (gpiod_start_callbacks g err).1.cb_line_bulk.map some
      = lines_of_used_entries g.rpi_gpiod_callbacks ∧
    (gpiod_start_callbacks g err).1.cb_line_bulk.map pin_of_line
      = pins_of_used_entries g.rpi_gpiod_callbacks ∧
    List.Pairwise (fun a b => a < b)
      ((gpiod_start_callbacks g err).1.cb_line_bulk.map pin_of_line) ∧
    (gpiod_start_callbacks g err).1.cb_line_bulk.Nodup ∧
    (∀ h : Globals N, h.rpi_gpiod_callbacks = g.rpi_gpiod_callbacks →
      (gpiod_start_callbacks h err).1.cb_line_bulk
        = (gpiod_start_callbacks g err).1.cb_line_bulk) ∧
    ((∀ i : Fin N, (g.rpi_gpiod_callbacks i).pin = -1) →
      (gpiod_start_callbacks g err).1.cb_line_bulk = [] ∧
      ∀ env : List Cycle,
        (∀ c ∈ env, ∀ l ∈ c.wait.event_bulk,
          l ∈ (gpiod_start_callbacks g err).1.cb_line_bulk) →
        (gpiod_callbacks_thread (gpiod_start_callbacks g err).1 env).calls = []) := by
  have hidx : table_indexed_by_pin g := by
    obtain ⟨g1, hreach1, hidx1⟩ := reachable_indexed_by_pin g0 chip_open calls
      (apply_calls_some_valid calls _ g hreach)
    rw [hreach] at hreach1
    cases hreach1
    exact hidx1
  obtain ⟨h1, h2, h3⟩ := used_lines_of_indexed g hidx (List.finRange N)
  have hasc : List.Pairwise (fun a b => a < b)
      ((gpiod_start_callbacks g err).1.cb_line_bulk.map pin_of_line) := by
    rw [start_bulk_eq, h2, h3]
    apply List.Pairwise.map (fun i : Fin N => (i.val : Int))
      (fun (a b : Fin N) (hab : a < b) => Int.ofNat_lt.mpr hab)
    exact List.Pairwise.filter _ (List.pairwise_lt_finRange N)
  refine ⟨?_, ?_, hasc, ?_, ?_, ?_⟩
  · rw [start_bulk_eq]
    exact h1
  · rw [start_bulk_eq]
    exact h2
  · have hnd : ((gpiod_start_callbacks g err).1.cb_line_bulk.map pin_of_line).Nodup :=
      List.Pairwise.imp (fun hab => ne_of_lt hab) hasc
    exact List.Nodup.of_map _ hnd
  · intro h hh
    rw [start_bulk_eq, start_bulk_eq, hh]
  · intro hunused
    have hempty : (gpiod_start_callbacks g err).1.cb_line_bulk = [] := by
      have hm : (gpiod_start_callbacks g err).1.cb_line_bulk.map pin_of_line = [] := by
        rw [start_bulk_eq, h2]
        simp [hunused]
      exact List.map_eq_nil_iff.mp hm
    refine ⟨hempty, ?_⟩
    intro env henv
    apply thread_calls_of_no_event
    intro c hc
    apply List.eq_nil_iff_forall_not_mem.mpr
    intro l hl
    have := henv c hc l hl
    rw [hempty] at this
    cases this

/-- Witness of C6: the 28-pin table after initialisation and the registration of pins
27 and 17, in that order. -/
theorem start_builds_wait_set_witness :
    apply_calls (gpiod_init_callbacks blank_globals none).1
        [TableCall.register (some line_27) (some 127),
          TableCall.register (some line_17) (some 117)]
      = some (with_table (gpiod_init_callbacks blank_globals none).1
          (Function.update
            (Function.update (gpiod_init_callbacks blank_globals none).1.rpi_gpiod_callbacks
              27 ⟨27, some line_27, some 127⟩)
            17 ⟨17, some line_17, some 117⟩)) ∧
    List.Pairwise (fun a b => a < b)
      ((gpiod_start_callbacks (with_table (gpiod_init_callbacks blank_globals none).1
          (Function.update
            (Function.update (gpiod_init_callbacks blank_globals none).1.rpi_gpiod_callbacks
              27 ⟨27, some line_27, some 127⟩)
            17 ⟨17, some line_17, some 117⟩)) 0).1.cb_line_bulk.map pin_of_line) :=
  have h27 : index_of_pin 28 (pin_of_line line_27) = some 27 := by decide
  have h17 : index_of_pin 28 (pin_of_line line_17) = some 17 := by decide
  have hreach : apply_calls (gpiod_init_callbacks blank_globals none).1
        [TableCall.register (some line_27) (some 127),
          TableCall.register (some line_17) (some 117)]
      = some (with_table (gpiod_init_callbacks blank_globals none).1
          (Function.update
            (Function.update (gpiod_init_callbacks blank_globals none).1.rpi_gpiod_callbacks
              27 ⟨27, some line_27, some 127⟩)
            17 ⟨17, some line_17, some 117⟩)) := by
    have p27 : pin_of_line line_27 = 27 := by decide
    have p17 : pin_of_line line_17 = 17 := by decide
    simp only [apply_calls, apply_call, register_at _ line_27 (some 127) h27,
      register_at _ line_17 (some 117) h17, with_table_table, with_table_twice, p27, p17]
  ⟨hreach, (start_builds_wait_set blank_globals _ none _ 0 hreach).2.2.1⟩

/-! ## Which callbacks run, and how often -/

theorem index_of_pin_eq_iff {N : Nat} (pin : Int) (i : Fin N) :
    index_of_pin N pin = some i ↔ pin = (i.val : Int) := by
  constructor
  · intro h
    exact (index_of_pin_val h).symm
  · intro h
    have h0 : 0 ≤ pin := by rw [h]; exact Int.ofNat_nonneg _
    have hN : pin < (N : Int) := by rw [h]; exact Int.ofNat_lt.mpr i.isLt
    rw [index_of_pin_some h0 hN]
    congr 1
    apply Fin.ext
    simp [h]

theorem callback_of_line_eq_some {N : Nat} (tbl : Fin N → gpiod_callback) (l : gpiod_line)
    (cb : Callback) :
    callback_of_line tbl l = some cb ↔
      ∃ i : Fin N, pin_of_line l = (i.val : Int) ∧ (tbl i).callback = some cb := by
  unfold callback_of_line
  cases hi : index_of_pin N (pin_of_line l) with
  | none =>
    constructor
    · intro h
      cases h
    · rintro ⟨i, hpin, _⟩
      rw [(index_of_pin_eq_iff _ i).mpr hpin] at hi
      cases hi
  | some j =>
    simp only
    constructor
    · intro h
      exact ⟨j, (index_of_pin_eq_iff _ j).mp hi, h⟩
    · rintro ⟨i, hpin, hcb⟩
      rw [(index_of_pin_eq_iff _ i).mpr hpin] at hi
      cases hi
      exact hcb

theorem count_eq_countP_of_map {α : Type} (f : α → Option Callback) (cb : Callback) :
    ∀ (calls : List Callback) (fired : List α), calls.map some = fired.map f →
      calls.count cb = fired.countP (fun l => decide (f l = some cb)) := by
  intro calls
  induction calls with
  | nil =>
    intro fired h
    cases fired with
    | nil => rfl
    | cons l ls => simp at h
  | cons c cs ih =>
    intro fired h
    cases fired with
    | nil => simp at h
    | cons l ls =>
      simp only [List.map_cons, List.cons.injEq] at h
      obtain ⟨hc, hrest⟩ := h
      rw [List.count_cons, List.countP_cons, ih ls hrest, ← hc]
      simp

/-- With no turn stopped from outside and no failing wait, the thread stays in its loop
and its calls are, line by line, the callbacks the table holds for the reported
lines. -/
theorem thread_calls_map {N : Nat} (g : Globals N) (env : List Cycle)
    (henv : ∀ c ∈ env, reaches_wait c ∧ 0 ≤ c.wait.ret ∧
      ∀ l ∈ reported c, callback_of_line g.rpi_gpiod_callbacks l ≠ none) :
    (gpiod_callbacks_thread g env).status = ThreadStatus.running ∧
    (gpiod_callbacks_thread g env).calls.map some
      = (env.flatMap reported).map (callback_of_line g.rpi_gpiod_callbacks) := by
  induction env using List.reverseRecOn with
  | nil => exact ⟨rfl, rfl⟩
  | append_singleton rest c ih =>
    obtain ⟨hrun, hmap⟩ := ih (fun d hd => henv d (by simp [hd]))
    obtain ⟨hreach, hret, hcb⟩ := henv c (by simp)
    obtain ⟨_, _, hflag⟩ := thread_keeps g rest
    rcases lt_or_eq_of_le hret with hpos | hzero
    · have hrep : reported c = c.wait.event_bulk := by
        unfold reported
        rw [if_pos hpos]
      rw [hrep] at hcb
      obtain ⟨hs, _, added, hcalls, hadded⟩ := thread_fired_cycle g rest c hrun hreach hpos hcb
      refine ⟨hs, ?_⟩
      rw [hcalls, List.map_append, hmap, hadded, List.flatMap_append, List.map_append]
      simp [hrep]
    · have hrep : reported c = [] := by
        unfold reported
        rw [if_neg (by omega)]
      rw [thread_singleton, loop_iteration_timeout _ c hrun hreach (hflag hrun) hzero.symm]
      refine ⟨rfl, ?_⟩
      simp only
      rw [hmap, List.flatMap_append, List.map_append]
      simp [hrep]

/-- C4: take a table in which no two entries share a callback, and turns of the loop
(none stopped from outside, no failing wait) whose reported lines all have a callback in
the table.  Then the thread stays in its loop and the callbacks it calls are, in the order
the lines were reported and one per reported line, those the table holds for the
offset of each line.  Hence the callback of an entry is called exactly as many times as
a line with that pin was reported, and a callback the table does not hold is never
called. -/
theorem dispatch_calls_table_callbacks {N : Nat} (g : Globals N) (env : List Cycle)
    (henv : ∀ c ∈ env, reaches_wait c ∧ 0 ≤ c.wait.ret ∧
      ∀ l ∈ reported c, callback_of_line g.rpi_gpiod_callbacks l ≠ none)
    (hown : ∀ i j : Fin N, (g.rpi_gpiod_callbacks i).callback ≠ none →
      (g.rpi_gpiod_callbacks i).callback = (g.rpi_gpiod_callbacks j).callback → i = j) :
    (gpiod_callbacks_thread g env).status = ThreadStatus.running ∧
    (gpiod_callbacks_thread g env).calls.map some
      = (env.flatMap reported).map (callback_of_line g.rpi_gpiod_callbacks) ∧
    (∀ (i : Fin N) (cb : Callback), (g.rpi_gpiod_callbacks i).callback = some cb →
      (gpiod_callbacks_thread g env).calls.count cb
        = (env.flatMap reported).countP (fun l => decide (pin_of_line l = (i.val : Int)))) ∧
    (∀ cb : Callback, (∀ i : Fin N, (g.rpi_gpiod_callbacks i).callback ≠ some cb) →
      (gpiod_callbacks_thread g env).calls.count cb = 0) := by
  obtain ⟨hrun, hmap⟩ := thread_calls_map g env henv
  refine ⟨hrun, hmap, ?_, ?_⟩
  · intro i cb hcb
    rw [count_eq_countP_of_map _ cb _ _ hmap]
    apply List.countP_congr
    intro l _
    simp only [decide_eq_true_eq]
    rw [callback_of_line_eq_some]
    constructor
    · rintro ⟨j, hpin, hj⟩
      have hji : j = i := hown j i (by rw [hj]; simp) (by rw [hj, hcb])
      rw [← hji]
      exact hpin
    · intro hpin
      exact ⟨i, hpin, hcb⟩
  · intro cb hnone
    rw [List.count_eq_zero]
    intro hmem
    have hsome : some cb ∈ (gpiod_callbacks_thread g env).calls.map some :=
      List.mem_map.mpr ⟨cb, hmem, rfl⟩
    rw [hmap] at hsome
    obtain ⟨l, _, hl⟩ := List.mem_map.mp hsome
    obtain ⟨i, _, hi⟩ := (callback_of_line_eq_some _ l cb).mp hl
    exact hnone i hi

theorem two_pins_registered_callback (i : Fin 28) :
    (two_pins_registered.rpi_gpiod_callbacks i).callback
      = if i = 27 then some 127 else if i = 17 then some 117 else none := by
  unfold two_pins_registered blank_globals
  simp only [with_table_table, Function.update_apply]
  by_cases h27 : i = 27
  · simp [h27]
  · by_cases h17 : i = 17
    · simp [h17]
    · simp [h27, h17, unused_entry]

/-- The state `two_pins_registered` is what registering line 17 with callback 117 and
line 27 with callback 127 makes of the blank table. -/
theorem two_pins_registered_reached :
    apply_calls blank_globals
        [TableCall.register (some line_17) (some 117),
          TableCall.register (some line_27) (some 127)]
      = some two_pins_registered := by
  have h27 : index_of_pin 28 (pin_of_line line_27) = some 27 := by decide
  have h17 : index_of_pin 28 (pin_of_line line_17) = some 17 := by decide
  have p27 : pin_of_line line_27 = 27 := by decide
  have p17 : pin_of_line line_17 = 17 := by decide
  simp only [apply_calls, apply_call, register_at _ line_27 (some 127) h27,
    register_at _ line_17 (some 117) h17, with_table_table, with_table_twice, p27, p17]
  rfl

/-- Witness of C4, the scenario of the spec: pins 17 and 27 registered with callbacks
117 and 127, line 17 reported three times and line 27 once.  Callback 117 runs three
times, callback 127 once, and no other callback runs. -/
theorem dispatch_calls_table_callbacks_witness :
    (gpiod_callbacks_thread two_pins_registered edges_17_thrice_27_once).calls
      = [117, 117, 127, 117] ∧
    (gpiod_callbacks_thread two_pins_registered edges_17_thrice_27_once).calls.count 117
      = 3 ∧
    (gpiod_callbacks_thread two_pins_registered edges_17_thrice_27_once).calls.count 127
      = 1 ∧
    ∀ cb : Callback, cb ≠ 117 → cb ≠ 127 →
      (gpiod_callbacks_thread two_pins_registered edges_17_thrice_27_once).calls.count cb
        = 0 :=
  have h := dispatch_calls_table_callbacks two_pins_registered edges_17_thrice_27_once
    (by decide)
    (by
      intro i j hi hij
      rw [two_pins_registered_callback i] at hi hij
      rw [two_pins_registered_callback j] at hij
      by_cases i27 : i = 27
      · by_cases j27 : j = 27
        · rw [i27, j27]
        · by_cases j17 : j = 17
          · simp [i27, j27, j17] at hij
          · simp [i27, j27, j17] at hij
      · by_cases i17 : i = 17
        · by_cases j27 : j = 27
          · simp [i27, i17, j27] at hij
          · by_cases j17 : j = 17
            · rw [i17, j17]
            · simp [i27, i17, j27, j17] at hij
        · simp [i27, i17] at hi)
  ⟨by decide,
    by rw [h.2.2.1 17 117 (by decide)]; decide,
    by rw [h.2.2.1 27 127 (by decide)]; decide,
    fun cb h117 h127 => h.2.2.2 cb (by
      intro i
      rw [two_pins_registered_callback i]
      by_cases i27 : i = 27
      · simp [i27]
        exact fun e => h127 e.symm
      · by_cases i17 : i = 17
        · simp [i27, i17]
          exact fun e => h117 e.symm
        · simp [i27, i17])⟩

end GpiodCallback
